import Mathlib

/-!
Verification development for the ymlog crate: a shallow embedding of
src/logger.rs (depth tracker, logger), src/formatter.rs (scalar folders) and
src/message.rs (blocks), together with theorems settling the specification
claims.  Rust strings are modelled as lists of characters, machine panics and
`unimplemented!` arms as `Except.error`, and the serde_yaml 0.8 dependency is
modelled on exactly the value shapes this crate feeds it, calibrated against
the byte-exact expectations of tests/test_macros.rs.
-/

set_option maxRecDepth 8000
set_option maxHeartbeats 4000000

/-- Rust `String` / `&str` values are modelled as lists of characters. -/
abbrev Str := List Char

/-- A run of `n` spaces. -/
def spaces (n : Nat) : Str := List.replicate n ' '

/-- Rust `str::repeat`. -/
def repeatStr (s : Str) : Nat → Str
  | 0 => []
  | n + 1 => s ++ repeatStr s n

/-- The double-quote character (written via its code point to keep character
literals simple). -/
def quoteChar : Char := Char.ofNat 34

/-- The backslash character. -/
def backslashChar : Char := Char.ofNat 92

/-- Whitespace test backing Rust `str::trim_end` (ASCII fragment; the logger
only ever produces ASCII whitespace). -/
def isWsChar (c : Char) : Bool := c = ' ' || c = '\n' || c = '\t' || c = '\r'

/-- Rust `str::trim_end`. -/
def trimEnd (s : Str) : Str := (s.reverse.dropWhile isWsChar).reverse

/-- Rust `str::split_once` with a string pattern: split at the first
occurrence of `pat`, returning the text before and after it. -/
def splitOnceStr (s pat : Str) : Option (Str × Str) :=
  if pat.isPrefixOf s then some ([], s.drop pat.length)
  else
    match s with
    | [] => none
    | c :: rest => (splitOnceStr rest pat).map (fun p => (c :: p.1, p.2))

/-- Rust `str::split_once` with a single-character pattern. -/
def splitOnceChar (s : Str) (c : Char) : Option (Str × Str) :=
  match s with
  | [] => none
  | x :: rest =>
    if x = c then some ([], rest)
    else (splitOnceChar rest c).map (fun p => (x :: p.1, p.2))

/-- Does `pat` occur as a contiguous substring of `s`? -/
def containsStr (s pat : Str) : Bool := (splitOnceStr s pat).isSome

/-- Worker for `replaceStr`, structurally recursive on a character budget.
Every step consumes at least one character of `s`, so a budget of `s.length`
never runs out. -/
def replaceStrAux (pat rep : Str) : Nat → Str → Str
  | _, [] => []
  | 0, s => s
  | fuel + 1, c :: rest =>
    if pat ≠ [] ∧ pat.isPrefixOf (c :: rest) then
      rep ++ replaceStrAux pat rep fuel ((c :: rest).drop pat.length)
    else
      c :: replaceStrAux pat rep fuel rest

/-- Rust `str::replace`: replace every occurrence of `pat` (non-empty in every
use in this crate) left to right, non-overlapping. -/
def replaceStr (s pat rep : Str) : Str := replaceStrAux pat rep s.length s

/-- The fragment of `serde_yaml::Value` that the logger actually produces and
serializes: string scalars, mappings and sequences. -/
inductive Yml where
  | str (s : Str)
  | mapping (pairs : List (Yml × Yml))
  | seq (items : List Yml)

mutual

/-- Decidable equality for `Yml` (the automatic deriving does not handle the
nested lists). -/
def Yml.decEq : (a b : Yml) → Decidable (a = b)
  | .str a, .str b =>
    if h : a = b then .isTrue (by rw [h])
    else .isFalse (fun hc => h (by injection hc))
  | .str _, .mapping _ => .isFalse (fun hc => Yml.noConfusion hc)
  | .str _, .seq _ => .isFalse (fun hc => Yml.noConfusion hc)
  | .mapping _, .str _ => .isFalse (fun hc => Yml.noConfusion hc)
  | .mapping a, .mapping b =>
    match Yml.decEqPairs a b with
    | .isTrue h => .isTrue (by rw [h])
    | .isFalse h => .isFalse (fun hc => by injection hc with h2; exact h h2)
  | .mapping _, .seq _ => .isFalse (fun hc => Yml.noConfusion hc)
  | .seq _, .str _ => .isFalse (fun hc => Yml.noConfusion hc)
  | .seq _, .mapping _ => .isFalse (fun hc => Yml.noConfusion hc)
  | .seq a, .seq b =>
    match Yml.decEqList a b with
    | .isTrue h => .isTrue (by rw [h])
    | .isFalse h => .isFalse (fun hc => by injection hc with h2; exact h h2)

/-- Decidable equality for mapping entry lists. -/
def Yml.decEqPairs : (a b : List (Yml × Yml)) → Decidable (a = b)
  | [], [] => .isTrue rfl
  | [], _ :: _ => .isFalse (fun hc => List.noConfusion hc)
  | _ :: _, [] => .isFalse (fun hc => List.noConfusion hc)
  | (k1, v1) :: r1, (k2, v2) :: r2 =>
    match Yml.decEq k1 k2 with
    | .isFalse h =>
      .isFalse (fun hc => by
        injection hc with hp _
        injection hp with hk _
        exact h hk)
    | .isTrue hk =>
      match Yml.decEq v1 v2 with
      | .isFalse h =>
        .isFalse (fun hc => by
          injection hc with hp _
          injection hp with _ hv
          exact h hv)
      | .isTrue hv =>
        match Yml.decEqPairs r1 r2 with
        | .isFalse h => .isFalse (fun hc => by injection hc with _ hr; exact h hr)
        | .isTrue hr => .isTrue (by rw [hk, hv, hr])

/-- Decidable equality for sequence item lists. -/
def Yml.decEqList : (a b : List Yml) → Decidable (a = b)
  | [], [] => .isTrue rfl
  | [], _ :: _ => .isFalse (fun hc => List.noConfusion hc)
  | _ :: _, [] => .isFalse (fun hc => List.noConfusion hc)
  | a :: r1, b :: r2 =>
    match Yml.decEq a b with
    | .isFalse h => .isFalse (fun hc => by injection hc with ha _; exact h ha)
    | .isTrue ha =>
      match Yml.decEqList r1 r2 with
      | .isFalse h => .isFalse (fun hc => by injection hc with _ hr; exact h hr)
      | .isTrue hr => .isTrue (by rw [ha, hr])

end

instance : DecidableEq Yml := Yml.decEq

/-- Escape one character for a double-quoted YAML scalar (yaml-rust
`escape_str`, restricted to the characters that occur in this development). -/
def escChar (c : Char) : Str :=
  if c = '\n' then [backslashChar, 'n']
  else if c = quoteChar then [backslashChar, quoteChar]
  else if c = backslashChar then [backslashChar, backslashChar]
  else [c]

/-- Escape a whole string for a double-quoted YAML scalar. -/
def escapeStr (s : Str) : Str := (s.map escChar).flatten

/-- yaml-rust's decision whether a string scalar needs double quoting,
restricted to the triggers that can fire on the strings this crate emits
(empty string, embedded newline, colon, quote, backslash, hash, and leading or
trailing blank). -/
def needQuotes (s : Str) : Bool :=
  s.isEmpty
    || s.any (fun c =>
        c = ':' || c = '\n' || c = quoteChar || c = backslashChar || c = '#')
    || (match s with | c :: _ => c = ' ' | [] => false)
    || (match s.getLast? with | some c => c = ' ' | none => false)

/-- Emit a string scalar, double-quoting it only when required. -/
def emitScalar (s : Str) : Str :=
  if needQuotes s then quoteChar :: (escapeStr s ++ [quoteChar]) else s

mutual

/-- Emit one YAML node in block style at the given column (two extra columns
per nesting level, as yaml-rust does). -/
def emitNode : Yml → Nat → Str
  | .str s, _ => emitScalar s
  | .mapping pairs, ind => emitPairs pairs ind
  | .seq items, ind => emitItems items ind

/-- Emit the entries of a block mapping. -/
def emitPairs : List (Yml × Yml) → Nat → Str
  | [], _ => []
  | (k, v) :: rest, ind =>
    (spaces ind ++ (match k with | .str s => emitScalar s | _ => ['?']) ++ [':']
      ++ (match v with
          | .str s => ' ' :: (emitScalar s ++ ['\n'])
          | _ => '\n' :: emitNode v (ind + 2)))
      ++ emitPairs rest ind

/-- Emit the items of a block sequence. -/
def emitItems : List Yml → Nat → Str
  | [], _ => []
  | v :: rest, ind =>
    (spaces ind ++ ['-']
      ++ (match v with
          | .str s => ' ' :: (emitScalar s ++ ['\n'])
          | _ => '\n' :: emitNode v (ind + 2)))
      ++ emitItems rest ind

end

/-- Model of `serde_yaml::to_string` (serde_yaml 0.8 over the yaml-rust
emitter) on the value shapes this crate produces: a `---` document start
line, block mappings and sequences indented two columns per level, string
scalars double-quoted (with `\n` escaped) only when required, and a trailing
newline.  Calibrated against the byte-exact expectations recorded in
tests/test_macros.rs. -/
def serde_yaml_to_string (v : Yml) : Str :=
  "---\n".toList
    ++ (match v with
        | .str s => emitScalar s ++ ['\n']
        | _ => emitNode v 0)

/-- `logger.rs` `Level` (derived `Ord` follows declaration order). -/
inductive Level where
  | trace | debug | info | warn | error
deriving DecidableEq, Repr

/-- Position of a level in the derived order. -/
def Level.toNat : Level → Nat
  | .trace => 0
  | .debug => 1
  | .info => 2
  | .warn => 3
  | .error => 4

/-- The derived strict order on `Level`. -/
def Level.lt (a b : Level) : Bool := a.toNat < b.toNat

/-- `logger.rs` `LastBlockType`: the tag recorded per open nesting level.
Spec names: `fresh` = `none`, `plain-item-open` = `message`, `block-item-open`
= `blockMessage`, `indent-pending` = `indent`, `block-indent-pending` =
`blockIndent`, `key-value-open` = `keyValue`. -/
inductive LastBlockType where
  | none | reset | message | blockMessage | indent | blockIndent | keyValue
deriving DecidableEq, Repr

/-- `logger.rs` `Tracker`.  The Rust `Vec` grows at its end; here the list
head is the top of the stack (the most recently pushed frame). -/
structure Tracker where
  depth : List LastBlockType
deriving DecidableEq, Repr

/-- `message.rs` `MessageType`. -/
inductive MessageType where
  | none
  | value (v : Yml)
  | keyValue (key value : Yml)
deriving DecidableEq

/-- `message.rs` `Block`, restricted to the fields the logger reads
(`log_level`, `message`, `children`); timestamp, tags and style are never
consulted by `Tracker::serialize` or `YmLog::log`. -/
inductive Block where
  | mk (log_level : Option Level) (message : MessageType)
      (children : Option (List Block))

/-- The block's optional level. -/
def Block.log_level : Block → Option Level
  | .mk l _ _ => l

/-- The block's message. -/
def Block.message : Block → MessageType
  | .mk _ m _ => m

/-- The block's optional children. -/
def Block.children : Block → Option (List Block)
  | .mk _ _ c => c

/-- `Block::set_log_level`. -/
def Block.set_log_level : Block → Level → Block
  | .mk _ m c, l => .mk (some l) m c

/-- Replace the block's message (the assignment done by `split_block`). -/
def Block.withMessage : Block → MessageType → Block
  | .mk l _ c, m => .mk l m c

mutual

/-- `Tracker::build_value`: convert a block (with its children) into a plain
YAML value plus the depth vector, which the Rust caller then discards.  The
three `panic!` arms are modelled as `Except.error`. -/
def Tracker.build_value : Block → Except Str (Yml × List LastBlockType)
  | .mk _ MessageType.none _ =>
    .error "Logs must always have a base message set".toList
  | .mk _ (.value (.mapping _)) (some _) =>
    .error "Log message blocks either have children or a map, not both".toList
  | .mk _ (.value v) (some children) =>
    match Tracker.build_value_list children with
    | .error e => .error e
    | .ok (vals, lastDepth) => .ok (.mapping [(v, .seq vals)], lastDepth)
  | .mk _ (.value v) Option.none => .ok (v, [LastBlockType.message])
  | .mk _ (.keyValue _ _) (some _) =>
    .error "Key/Value log messages cannot have children".toList
  | .mk _ (.keyValue k v) Option.none =>
    .ok (.mapping [(k, v)], [LastBlockType.keyValue])

/-- The children fold inside `build_value`: collect the child values and keep
the depth vector of the last child (`last_depth` in the Rust fold). -/
def Tracker.build_value_list :
    List Block → Except Str (List Yml × List LastBlockType)
  | [] => .ok ([], [])
  | b :: rest =>
    match Tracker.build_value b with
    | .error e => .error e
    | .ok (v, d) =>
      match Tracker.build_value_list rest with
      | .error e => .error e
      | .ok (vs, ds) => .ok (v :: vs, if rest.isEmpty then d else ds)

end

/-- `Tracker::is_block`: a value is a block when it is a string containing a
line break. -/
def Tracker.is_block : Yml → Bool
  | .str s => s.contains '\n'
  | _ => false

/-- Wrap a value in a single-entry mapping with the empty-string key (one turn
of the padding loop in `indent_string`). -/
def wrapEmptyKey (v : Yml) : Yml := .mapping [(.str [], v)]

/-- `Tracker::indent_string`: add the proper indentation around the value by
rendering a synthetic `__Cut Here__` wrapper and keeping the slice after the
sentinel.  The function also performs the `BlockMessage` upgrade of the top
frame, so it returns the updated tracker alongside the fragment; the
`unreachable!` and sentinel-missing `panic!` arms are `Except.error`. -/
def Tracker.indent_string (t : Tracker) (value : Yml) :
    Except Str (Str × Tracker) :=
  let isb := Tracker.is_block value
  let depth :=
    if isb then
      match t.depth with
      | [] => []
      | _ :: rest => LastBlockType.blockMessage :: rest
    else t.depth
  let t2 := Tracker.mk depth
  if depth.length = 0 then
    .error "unreachable: zero depth".toList
  else if depth.length = 1 then
    if isb then
      match value with
      | .str inner => .ok ("|+ ".toList ++ inner, t2)
      | _ => .error "unreachable: a block is always a string".toList
    else .ok (serde_yaml_to_string value, t2)
  else
    let base : Yml := .mapping [(.str "__Cut Here__".toList, .seq [value])]
    let padded := wrapEmptyKey^[depth.length - 2] base
    match splitOnceStr (serde_yaml_to_string padded) "__Cut Here__:\n".toList with
    | Option.none =>
      .error "Could not find Cut Here in the serialized message block".toList
    | some (_, message) =>
      if isb then
        let i_size := depth.length * 2
        let indent := message.take i_size
        let after := message.drop i_size
        let block_indent := spaces i_size
        let sliced :=
          replaceStr ((after.drop 1).take (after.length - 3))
            [backslashChar, 'n'] ('\n' :: block_indent)
        .ok (indent ++ "|-\n".toList ++ block_indent ++ sliced ++ ['\n'], t2)
      else .ok (message, t2)

/-- `Tracker::serialize`: convert the block to a writable string, updating the
tracker state; the `unimplemented!` arm for a `KeyValue` top frame is an
`Except.error`. -/
def Tracker.serialize (t : Tracker) (block : Block) :
    Except Str (Str × Tracker) :=
  match Tracker.build_value block with
  | .error e => .error e
  | .ok (value, _new_depth) =>
    match t.depth with
    | [] =>
      .ok (trimEnd ('\n' :: serde_yaml_to_string value),
        Tracker.mk [LastBlockType.message])
    | .none :: rest =>
      .ok (trimEnd ('\n' :: serde_yaml_to_string value),
        Tracker.mk (LastBlockType.message :: rest))
    | .reset :: rest =>
      .ok (trimEnd ('\n' :: serde_yaml_to_string value),
        Tracker.mk (LastBlockType.message :: rest))
    | .message :: rest =>
      match Tracker.indent_string (Tracker.mk (.message :: rest)) value with
      | .error e => .error e
      | .ok (s, t2) => .ok (trimEnd ('\n' :: s), t2)
    | .blockMessage :: rest =>
      match Tracker.indent_string (Tracker.mk (.blockMessage :: rest)) value with
      | .error e => .error e
      | .ok (s, t2) => .ok (trimEnd ('\n' :: s), t2)
    | .indent :: rest =>
      match Tracker.indent_string (Tracker.mk (.message :: rest)) value with
      | .error e => .error e
      | .ok (s, t2) => .ok (trimEnd (':' :: '\n' :: s), t2)
    | .blockIndent :: rest =>
      match Tracker.indent_string (Tracker.mk (.blockMessage :: rest)) value with
      | .error e => .error e
      | .ok (s, t2) =>
        .ok (trimEnd ('\n' ::
          (repeatStr "  ".toList ((LastBlockType.blockMessage :: rest).length - 2)
            ++ "- \"\" :\n".toList ++ s)), t2)
    | .keyValue :: _ =>
      .error "unimplemented: KeyValue still needs to be implemented".toList

/-- `Tracker::indent`: push a pending-indent frame over a `Message` or
`BlockMessage` top; any other top frame makes this a no-op. -/
def Tracker.indent (t : Tracker) : Tracker :=
  match t.depth with
  | .message :: _ => Tracker.mk (LastBlockType.indent :: t.depth)
  | .blockMessage :: _ => Tracker.mk (LastBlockType.blockIndent :: t.depth)
  | _ => t

/-- `Tracker::dedent`: pop one frame, ignoring the popped value (`Vec::pop`
on an empty vector is a no-op). -/
def Tracker.dedent (t : Tracker) : Tracker := Tracker.mk t.depth.tail

/-- `Tracker::reset`: clear the stack and push one `Reset` marker. -/
def Tracker.reset (_t : Tracker) : Tracker := Tracker.mk [LastBlockType.reset]

/-- `logger.rs` `YmLog`: the tracker, the threshold level, and whether a sink
has been attached (`logger.is_some()`); the sink itself is modelled by
returning the list of fragments written to it. -/
structure YmLog where
  tracker : Tracker
  log_level : Level
  loggerSet : Bool
deriving DecidableEq, Repr

/-- `YmLog::write`: skip the block when its level (default `Info`) is below
the threshold, otherwise serialize and append to the sink when one is
attached.  Returns the updated logger and the fragments written. -/
def YmLog.write (y : YmLog) (block : Block) :
    Except Str (YmLog × List Str) :=
  let level := block.log_level.getD Level.info
  if Level.lt level y.log_level then .ok (y, [])
  else if y.loggerSet then
    match Tracker.serialize y.tracker block with
    | .error e => .error e
    | .ok (s, t2) => .ok ({ y with tracker := t2 }, [s])
  else .ok (y, [])

/-- `YmLog::split_block`: split a plain string message at its first colon into
a key/value pair; the four `panic!` arms are `Except.error`. -/
def YmLog.split_block (block : Block) : Except Str Block :=
  match block.message with
  | .value (.str msg) =>
    match splitOnceChar msg ':' with
    | some (key, value) =>
      .ok (block.withMessage (.keyValue (.str key) (.str value)))
    | Option.none => .error "Could not find a colon to split at".toList
  | .value _ => .error "Only string messages can be split".toList
  | .keyValue _ _ => .error "Tried to re-split a logging block".toList
  | MessageType.none => .error "Cannot split message that was not set".toList

/-- The loop body of `YmLog::log`: interpret the action characters left to
right, tracking `has_printed` and accumulating the fragments written. -/
def YmLog.logLoop (y : YmLog) (block : Block) (has_printed : Bool)
    (outs : List Str) : Str → Except Str (YmLog × Block × List Str)
  | [] =>
    if has_printed then .ok (y, block, outs)
    else
      match YmLog.write y block with
      | .error e => .error e
      | .ok (y2, ws) => .ok (y2, block, outs ++ ws)
  | c :: cs =>
    if c = '+' then
      YmLog.logLoop { y with tracker := y.tracker.indent } block has_printed outs cs
    else if c = '-' then
      YmLog.logLoop { y with tracker := y.tracker.dedent } block has_printed outs cs
    else if c = 'r' then
      YmLog.logLoop { y with tracker := y.tracker.reset } block has_printed outs cs
    else if c = 'k' then
      match YmLog.split_block block with
      | .error e => .error e
      | .ok b2 => YmLog.logLoop y b2 has_printed outs cs
    else if c = '_' then
      match YmLog.write y block with
      | .error e => .error e
      | .ok (y2, ws) => YmLog.logLoop y2 block true (outs ++ ws) cs
    else if c = 'T' then
      YmLog.logLoop y (block.set_log_level .trace) has_printed outs cs
    else if c = 'D' then
      YmLog.logLoop y (block.set_log_level .debug) has_printed outs cs
    else if c = 'I' then
      YmLog.logLoop y (block.set_log_level .info) has_printed outs cs
    else if c = 'W' then
      YmLog.logLoop y (block.set_log_level .warn) has_printed outs cs
    else if c = 'E' then
      YmLog.logLoop y (block.set_log_level .error) has_printed outs cs
    else .error "invalid character found in logging statement".toList

/-- `YmLog::log`: assert the sink is attached, interpret the action string,
and write the block once at the end when no `_` appeared. -/
def YmLog.log (y : YmLog) (block : Block) (actions : Option Str) :
    Except Str (YmLog × Block × List Str) :=
  if y.loggerSet then YmLog.logLoop y block false [] (actions.getD [])
  else .error "The logger wasn't initialized".toList

/-- `formatter.rs` `Chomp`: whether to remove trailing newlines. -/
inductive Chomp where
  | clip | strip | keep
deriving DecidableEq, Repr

/-- The chomping indicator appended to a block-scalar header (the `Display`
implementation for `Chomp`). -/
def Chomp.toStr : Chomp → Str
  | .clip => []
  | .strip => ['-']
  | .keep => ['+']

/-- `formatter.rs` `Indent`: the type and size of one indent unit. -/
inductive Indent where
  | space (count : Nat)
  | tab
deriving DecidableEq, Repr

/-- One indent unit as text (the `Display` implementation for `Indent`). -/
def Indent.toStr : Indent → Str
  | .space count => List.replicate count ' '
  | .tab => ['\t']

/-- The character loop of `Style::fold_string`: `result` is the text emitted
so far, `word` the buffered word, `line_len` the running line length, and
`word_is_ws` the all-whitespace flag (which the source initialises to false
and never sets).  When the input ends, the still-buffered `word` is discarded,
exactly as in the source.  `line_len` is a `Nat`, so the `indent.len() - 1`
updates floor at zero where the Rust `usize` arithmetic would underflow (only
reachable with a zero-width indent unit, which no caller uses). -/
def foldLoop (ind : Str) (wrap_at : Nat) :
    Str → Str → Str → Nat → Bool → Str
  | [], result, _word, _line_len, _word_is_ws => result
  | c :: cs, result, word, line_len, word_is_ws =>
    if c = ' ' then
      if wrap_at ≤ word.length + line_len then
        if word_is_ws then
          foldLoop ind wrap_at cs (result ++ ['\n']) (ind ++ word)
            (ind.length - 1) word_is_ws
        else
          foldLoop ind wrap_at cs (result ++ word ++ '\n' :: ind) ind
            (ind.length - 1) false
      else
        foldLoop ind wrap_at cs (result ++ word) [] (line_len + word.length)
          word_is_ws
    else if c = '\n' then
      foldLoop ind wrap_at cs (result ++ '\n' :: ind) word (ind.length - 1)
        word_is_ws
    else
      foldLoop ind wrap_at cs result (word ++ [c]) line_len word_is_ws

/-- `Style::fold_string`: fold a string into a wrapped `>` block scalar. -/
def Style.fold_string (value : Str) (depth : Nat) (chomp : Chomp)
    (indent : Indent) (wrap_at : Nat) : Str :=
  let ind := repeatStr indent.toStr (depth + 1)
  foldLoop ind wrap_at value (" >".toList ++ chomp.toStr ++ ['\n']) []
    ind.length false

/-- `Style::literal_string`: the value, depth, indent and wrap width
parameters are all ignored by the source (they are bound as `_value` etc.);
only the ` |` header with the chomping indicator is produced. -/
def Style.literal_string (_value : Str) (_depth : Nat) (chomp : Chomp)
    (_indent : Indent) (_wrap_at : Nat) : Str :=
  " |".toList ++ chomp.toStr ++ ['\n']

/-- The state effect of a single non-writing action character, used to phrase
claims C8 and C10: `+`/`-`/`r` act on the tracker, `k` splits the message,
level letters set the block's level, `_` is excluded, and anything else is
the fatal unknown-character error. -/
def applyAct1 (y : YmLog) (block : Block) (c : Char) :
    Except Str (YmLog × Block) :=
  if c = '+' then .ok ({ y with tracker := y.tracker.indent }, block)
  else if c = '-' then .ok ({ y with tracker := y.tracker.dedent }, block)
  else if c = 'r' then .ok ({ y with tracker := y.tracker.reset }, block)
  else if c = 'k' then
    match YmLog.split_block block with
    | .error e => .error e
    | .ok b2 => .ok (y, b2)
  else if c = '_' then .error "unexpected underscore".toList
  else if c = 'T' then .ok (y, block.set_log_level .trace)
  else if c = 'D' then .ok (y, block.set_log_level .debug)
  else if c = 'I' then .ok (y, block.set_log_level .info)
  else if c = 'W' then .ok (y, block.set_log_level .warn)
  else if c = 'E' then .ok (y, block.set_log_level .error)
  else .error "invalid character found in logging statement".toList

/-- Apply a whole action string's non-writing state effects left to right. -/
def applyActs (y : YmLog) (block : Block) : Str → Except Str (YmLog × Block)
  | [] => .ok (y, block)
  | c :: cs => Except.bind (applyAct1 y block c) (fun p => applyActs p.1 p.2 cs)

/-- The tracker effect of one action character (used to phrase claim C10):
`+`, `-` and `r` mutate the tracker, everything else leaves it alone. -/
def trackStep (t : Tracker) (c : Char) : Tracker :=
  if c = '+' then t.indent
  else if c = '-' then t.dedent
  else if c = 'r' then t.reset
  else t

/-- A block holding just a plain string message (the shape the `ymlog!` macro
builds for a bare string). -/
def mkStrBlock (s : String) : Block :=
  Block.mk Option.none (.value (.str s.toList)) Option.none

/-- A logger with an attached in-memory sink and the lowest threshold over
the given tracker stack, as set up by the repository's sanity test. -/
def T (l : List LastBlockType) : YmLog :=
  { tracker := Tracker.mk l, log_level := .trace, loggerSet := true }

/-!
Calibration: the fourteen `ymlog!` calls of `sanity_check` in
tests/test_macros.rs, replayed step by step (each example starts from the
tracker state the previous one ends in).  The model reproduces the test's
expected buffer byte for byte, except for one leading newline written before
the very first document — the divergence underlying claim C1.
-/

open LastBlockType in
example :
    YmLog.log (T []) (mkStrBlock "Root Message") none
      = .ok (T [message], mkStrBlock "Root Message",
          ["\n---\nRoot Message".toList]) := rfl

open LastBlockType in
example :
    YmLog.log (T [message]) (mkStrBlock "Another Root Message (not a sequence)")
        (some "_".toList)
      = .ok (T [message], mkStrBlock "Another Root Message (not a sequence)",
          ["\n---\nAnother Root Message (not a sequence)".toList]) := rfl

open LastBlockType in
example :
    YmLog.log (T [message]) (mkStrBlock "Add an indented record")
        (some "+_".toList)
      = .ok (T [message, message], mkStrBlock "Add an indented record",
          [":\n  - Add an indented record".toList]) := rfl

open LastBlockType in
example :
    YmLog.log (T [message, message]) (mkStrBlock "Second at depth 1")
        (some "_".toList)
      = .ok (T [message, message], mkStrBlock "Second at depth 1",
          ["\n  - Second at depth 1".toList]) := rfl

open LastBlockType in
example :
    YmLog.log (T [message, message])
        (mkStrBlock "Third and adds an indent at the end") (some "_+".toList)
      = .ok (T [indent, message, message],
          mkStrBlock "Third and adds an indent at the end",
          ["\n  - Third and adds an indent at the end".toList]) := rfl

open LastBlockType in
example :
    YmLog.log (T [indent, message, message]) (mkStrBlock "First at depth 2")
        (some "_".toList)
      = .ok (T [message, message, message], mkStrBlock "First at depth 2",
          [":\n    - First at depth 2".toList]) := rfl

open LastBlockType in
example :
    YmLog.log (T [message, message, message])
        (mkStrBlock "First at depth 3 with a trailing indent")
        (some "+_+".toList)
      = .ok (T [indent, message, message, message, message],
          mkStrBlock "First at depth 3 with a trailing indent",
          [":\n      - First at depth 3 with a trailing indent".toList]) := rfl

open LastBlockType in
example :
    YmLog.log (T [indent, message, message, message, message])
        (mkStrBlock "First at depth 4") (some "_".toList)
      = .ok (T [message, message, message, message, message],
          mkStrBlock "First at depth 4",
          [":\n        - First at depth 4".toList]) := rfl

open LastBlockType in
example :
    YmLog.log (T [message, message, message, message, message])
        (mkStrBlock "Dedent twice to depth 2") (some "--_-".toList)
      = .ok (T [message, message], mkStrBlock "Dedent twice to depth 2",
          ["\n    - Dedent twice to depth 2".toList]) := rfl

open LastBlockType in
example :
    YmLog.log (T [message, message])
        (mkStrBlock "And the trailing dedent brings us back to depth 1")
        (some "_".toList)
      = .ok (T [message, message],
          mkStrBlock "And the trailing dedent brings us back to depth 1",
          ["\n  - And the trailing dedent brings us back to depth 1".toList]) := rfl

open LastBlockType in
example :
    YmLog.log (T [message, message]) (mkStrBlock "Neutral indent commands")
        (some "+-_".toList)
      = .ok (T [message, message], mkStrBlock "Neutral indent commands",
          ["\n  - Neutral indent commands".toList]) := rfl

open LastBlockType in
example :
    YmLog.log (T [message, message])
        (mkStrBlock "Adding a Block Indent\nWith extra text") (some "+_".toList)
      = .ok (T [blockMessage, message, message],
          mkStrBlock "Adding a Block Indent\nWith extra text",
          [":\n    - |-\n      Adding a Block Indent\n      With extra text".toList]) := rfl

open LastBlockType in
example :
    YmLog.log (T [blockMessage, message, message])
        (mkStrBlock "Adding another Block Indent\nAfter a block")
        (some "+_".toList)
      = .ok (T [blockMessage, blockMessage, message, message],
          mkStrBlock "Adding another Block Indent\nAfter a block",
          ["\n    - \"\" :\n      - |-\n        Adding another Block Indent\n        After a block".toList]) := rfl

open LastBlockType in
example :
    YmLog.log (T [blockMessage, blockMessage, message, message])
        (mkStrBlock "Add a simple item") (some "_".toList)
      = .ok (T [blockMessage, blockMessage, message, message],
          mkStrBlock "Add a simple item",
          ["\n      - Add a simple item".toList]) := rfl

/-- Claim C1, evaluated at the failing input: from the Start state (empty
stack), and equally from the Reset state, serializing a plain one-line
message writes a leading newline before the `---` document marker — while
the claim, and the repository's own sanity test, expect the very first
document with no leading separator. -/
theorem tracker_C1_leading_newline :
    Tracker.serialize (Tracker.mk []) (mkStrBlock "Root Message")
        = .ok ("\n---\nRoot Message".toList, Tracker.mk [LastBlockType.message])
      ∧ Tracker.serialize (Tracker.mk [LastBlockType.reset]) (mkStrBlock "Root Message")
        = .ok ("\n---\nRoot Message".toList, Tracker.mk [LastBlockType.message])
      ∧ "\n---\nRoot Message".toList ≠ "---\nRoot Message".toList :=
  ⟨rfl, rfl, by decide⟩

/-- Claim C3, evaluated against the code: `Style::literal_string` produces
only the ` |` header with the chomping indicator, for every input value,
depth, indent and wrap width; the input's content — and with it every
newline — is dropped entirely, contradicting the claim (and the function's
own documentation, which says it preserves newlines). -/
theorem style_C3_literal_header_only :
    (∀ (value : Str) (depth : Nat) (chomp : Chomp) (indent : Indent)
        (wrap_at : Nat),
        Style.literal_string value depth chomp indent wrap_at
          = " |".toList ++ chomp.toStr ++ ['\n'])
      ∧ Style.literal_string "a\nb".toList 0 Chomp.clip (Indent.space 2) 120
          = " |\n".toList
      ∧ containsStr
          (Style.literal_string "a\nb".toList 0 Chomp.clip (Indent.space 2) 120)
          "a\nb".toList = false :=
  ⟨fun _ _ _ _ _ => rfl, rfl, by decide⟩

/-- Claim C5: `indent()` pushes `IndentPending` over a `PlainItem`
(`Message`) top, pushes `BlockIndentPending` over a `BlockItem`
(`BlockMessage`) top, and otherwise leaves the stack unchanged; consequently
repeated indent requests at the same level are ignored — `indent` is
idempotent, so only one indent is honored per parent. -/
theorem tracker_C5_indent_cases :
    ∀ t : Tracker,
      (Tracker.indent t =
        match t.depth.head? with
        | some LastBlockType.message =>
            Tracker.mk (LastBlockType.indent :: t.depth)
        | some LastBlockType.blockMessage =>
            Tracker.mk (LastBlockType.blockIndent :: t.depth)
        | _ => t)
      ∧ Tracker.indent (Tracker.indent t) = Tracker.indent t := by
  intro t
  obtain ⟨d⟩ := t
  cases d with
  | nil => exact ⟨rfl, rfl⟩
  | cons f rest => cases f <;> exact ⟨rfl, rfl⟩

/-- Iterating `dedent` drops one frame per application, with no error on an
empty stack. -/
theorem dedent_iterate_drop :
    ∀ (n : Nat) (t : Tracker), (Tracker.dedent^[n] t).depth = t.depth.drop n := by
  intro n
  induction n with
  | zero => intro t; rfl
  | succ n ih =>
    intro t
    rw [Function.iterate_succ_apply, ih]
    show t.depth.tail.drop n = t.depth.drop (n + 1)
    rw [← List.drop_one, List.drop_drop, Nat.add_comm]

/-- Claim C6: `dedent()` pops exactly one frame (the stack becomes its tail),
raises no error on an empty stack, and iterating it `n` times drops `n`
frames, so the depth floors at 0 when dedenting past the current depth. -/
theorem tracker_C6_dedent :
    ∀ (t : Tracker) (n : Nat),
      Tracker.dedent t = Tracker.mk t.depth.tail
        ∧ (Tracker.dedent^[n] t).depth = t.depth.drop n
        ∧ (Tracker.dedent t).depth.length = t.depth.length - 1 :=
  fun t n => ⟨rfl, dedent_iterate_drop n t, by simp [Tracker.dedent]⟩

/-- Claim C4 fails as stated: on input `"hello"` (one word, never followed by
a space) the folder emits only the header — the word does not appear in the
output at all; and on input `"a bb cc"` with wrap width 5 the buffered word
`bb` is appended to the end of the line already holding `a` (producing the
line `abb`) instead of starting the new line, and the trailing word `cc` is
dropped. -/
theorem style_C4_counterexample :
    Style.fold_string "hello".toList 0 Chomp.clip (Indent.space 2) 120
        = " >\n".toList
      ∧ containsStr
          (Style.fold_string "hello".toList 0 Chomp.clip (Indent.space 2) 120)
          "hello".toList = false
      ∧ Style.fold_string "a bb cc".toList 0 Chomp.clip (Indent.space 2) 5
          = " >\nabb\n  ".toList
      ∧ containsStr
          (Style.fold_string "a bb cc".toList 0 Chomp.clip (Indent.space 2) 5)
          "cc".toList = false :=
  ⟨rfl, by decide, rfl, by decide⟩

/-- Characters that are neither spaces nor newlines only ever accumulate in
the word buffer, which is discarded when the input ends. -/
theorem foldLoop_no_space (ind : Str) (wrap_at : Nat) :
    ∀ (cs result word : Str) (line_len : Nat) (ws : Bool),
      (∀ c ∈ cs, c ≠ ' ' ∧ c ≠ '\n') →
      foldLoop ind wrap_at cs result word line_len ws = result := by
  intro cs
  induction cs with
  | nil => intro result word line_len ws _; rfl
  | cons c cs ih =>
    intro result word line_len ws h
    have hc := h c (List.mem_cons_self c cs)
    show foldLoop ind wrap_at (c :: cs) result word line_len ws = result
    rw [foldLoop, if_neg hc.1, if_neg hc.2]
    exact ih _ _ _ _ (fun x hx => h x (List.mem_cons_of_mem c hx))

/-- Claim C4 amended: the folded-scalar algorithm never emits the final
buffered word — a word not followed by a space is dropped, so an input with
no spaces and no newlines folds to just the `>` header with its chomping
indicator (and at a wrap point the buffered word is appended to the end of
the current line, with the break after it, as exhibited in the
counterexample). -/
theorem style_C4_trailing_word (value : Str) (depth : Nat) (chomp : Chomp)
    (indent : Indent) (wrap_at : Nat)
    (h : ∀ c ∈ value, c ≠ ' ' ∧ c ≠ '\n') :
    Style.fold_string value depth chomp indent wrap_at
      = " >".toList ++ chomp.toStr ++ ['\n'] :=
  foldLoop_no_space _ _ _ _ _ _ _ h

/-- Witness for C4: the amended theorem applied at a concrete input. -/
theorem style_C4_witness :
    (∀ c ∈ "hello".toList, c ≠ ' ' ∧ c ≠ '\n')
      ∧ Style.fold_string "hello".toList 2 Chomp.strip (Indent.space 2) 10
          = " >-\n".toList :=
  ⟨by decide, style_C4_trailing_word "hello".toList 2 Chomp.strip
    (Indent.space 2) 10 (by decide)⟩

/-- Claim C7 fails as stated: with an `IndentPending` frame on top (state
reached by a plain emit followed by one `indent()`), a further `indent()` is
a no-op, so the following `dedent()` pops the pre-existing pending frame;
serializing the same entry afterwards yields observably different bytes than
serializing from the original state would have. -/
theorem tracker_C7_counterexample :
    Tracker.indent (Tracker.mk [LastBlockType.indent, LastBlockType.message])
        = Tracker.mk [LastBlockType.indent, LastBlockType.message]
      ∧ Tracker.dedent (Tracker.indent
            (Tracker.mk [LastBlockType.indent, LastBlockType.message]))
          = Tracker.mk [LastBlockType.message]
      ∧ Tracker.serialize
            (Tracker.dedent (Tracker.indent
              (Tracker.mk [LastBlockType.indent, LastBlockType.message])))
            (mkStrBlock "x")
          = .ok ("\n---\nx".toList, Tracker.mk [LastBlockType.message])
      ∧ Tracker.serialize
            (Tracker.mk [LastBlockType.indent, LastBlockType.message])
            (mkStrBlock "x")
          = .ok (":\n  - x".toList,
              Tracker.mk [LastBlockType.message, LastBlockType.message])
      ∧ ("\n---\nx".toList ≠ ":\n  - x".toList) :=
  ⟨rfl, rfl, rfl, rfl, by decide⟩

/-- Claim C7 amended: when the top frame is `PlainItem` or `BlockItem` (the
cases in which `indent()` actually pushes a frame), or the stack is empty,
`dedent()` directly after `indent()` restores the tracker exactly — in
particular its external behavior; when `indent()` was a no-op instead, the
`dedent()` can pop a pre-existing frame and change observable behavior, as
the counterexample shows. -/
theorem tracker_C7_indent_dedent (t : Tracker)
    (h : t.depth = [] ∨ t.depth.head? = some LastBlockType.message
        ∨ t.depth.head? = some LastBlockType.blockMessage) :
    Tracker.dedent (Tracker.indent t) = t := by
  obtain ⟨d⟩ := t
  cases d with
  | nil => rfl
  | cons f rest =>
    rcases h with h | h | h
    · exact absurd h (by simp)
    · have : f = LastBlockType.message := by simpa using h
      subst this; rfl
    · have : f = LastBlockType.blockMessage := by simpa using h
      subst this; rfl

/-- Witness for C7: the amended theorem applied at a concrete tracker. -/
theorem tracker_C7_witness :
    Tracker.dedent (Tracker.indent (Tracker.mk [LastBlockType.message]))
      = Tracker.mk [LastBlockType.message] :=
  tracker_C7_indent_dedent (Tracker.mk [LastBlockType.message])
    (Or.inr (Or.inl rfl))

/-- Claim C2 fails in the Start/Reset case: serializing a first-document
entry whose message contains a line break records a `PlainItem` (`Message`)
frame, not `BlockItem`, because the Start and Reset arms of `serialize`
bypass `indent_string` and never run the block upgrade. -/
theorem tracker_C2_counterexample :
    Tracker.serialize (Tracker.mk []) (mkStrBlock "a\nb")
        = .ok ("\n---\n\"a\\nb\"".toList, Tracker.mk [LastBlockType.message])
      ∧ Tracker.serialize (Tracker.mk [LastBlockType.reset]) (mkStrBlock "a\nb")
        = .ok ("\n---\n\"a\\nb\"".toList, Tracker.mk [LastBlockType.message])
      ∧ Tracker.is_block (.str "a\nb".toList) = true
      ∧ LastBlockType.message ≠ LastBlockType.blockMessage :=
  ⟨rfl, rfl, rfl, by decide⟩


/-- When the value is a block (a string with a line break), every successful
`indent_string` call on a non-empty stack returns the tracker with its top
frame upgraded to `BlockMessage`. -/
theorem indent_string_block_frame (f : LastBlockType)
    (rest : List LastBlockType) (v : Yml) (s : Str) (t2 : Tracker)
    (hb : Tracker.is_block v = true)
    (h : Tracker.indent_string (Tracker.mk (f :: rest)) v = .ok (s, t2)) :
    t2 = Tracker.mk (LastBlockType.blockMessage :: rest) := by
  have hv : ∃ sv, v = Yml.str sv := by
    cases v with
    | str sv => exact ⟨sv, rfl⟩
    | mapping p => simp [Tracker.is_block] at hb
    | seq i => simp [Tracker.is_block] at hb
  obtain ⟨sv, rfl⟩ := hv
  unfold Tracker.indent_string at h
  rw [hb] at h
  simp only [List.length_cons, if_true] at h
  norm_num at h
  split at h
  · exact ((Prod.mk.injEq _ _ _ _ ▸ (Except.ok.inj h) : _ ∧ _).2).symm
  · split at h
    · exact absurd h (by simp)
    · exact ((Prod.mk.injEq _ _ _ _ ▸ (Except.ok.inj h) : _ ∧ _).2).symm

/-- Claim C2 amended: the `BlockItem` upgrade for an entry whose rendered
message contains a line break happens in exactly the serialize arms that
render through `indent_string` — top frame `PlainItem` (`Message`),
`BlockItem` (`BlockMessage`), `IndentPending` (`Indent`) or
`BlockIndentPending` (`BlockIndent`); in the Start, Reset and fresh (`None`)
arms the frame recorded is still `PlainItem` even for multi-line content. -/
theorem tracker_C2_block_upgrade (t : Tracker) (block : Block) (v : Yml)
    (d : List LastBlockType) (s : Str) (t2 : Tracker)
    (hv : Tracker.build_value block = .ok (v, d))
    (hb : Tracker.is_block v = true)
    (hs : Tracker.serialize t block = .ok (s, t2)) :
    ((t.depth = [] ∨ t.depth.head? = some LastBlockType.none
        ∨ t.depth.head? = some LastBlockType.reset)
      → t2.depth.head? = some LastBlockType.message)
    ∧ ((t.depth.head? = some LastBlockType.message
        ∨ t.depth.head? = some LastBlockType.blockMessage
        ∨ t.depth.head? = some LastBlockType.indent
        ∨ t.depth.head? = some LastBlockType.blockIndent)
      → t2.depth.head? = some LastBlockType.blockMessage) := by
  unfold Tracker.serialize at hs
  rw [hv] at hs
  obtain ⟨dep⟩ := t
  cases dep with
  | nil =>
    have ht2 : t2 = Tracker.mk [LastBlockType.message] :=
      ((Prod.mk.injEq _ _ _ _ ▸ (Except.ok.inj hs) : _ ∧ _).2).symm
    subst ht2
    constructor
    · intro _; rfl
    · intro hcase
      rcases hcase with h | h | h | h <;> simp at h
  | cons f rest =>
    cases f with
    | none =>
      have ht2 : t2 = Tracker.mk (LastBlockType.message :: rest) :=
        ((Prod.mk.injEq _ _ _ _ ▸ (Except.ok.inj hs) : _ ∧ _).2).symm
      subst ht2
      constructor
      · intro _; rfl
      · intro hcase
        rcases hcase with h | h | h | h <;> simp at h
    | reset =>
      have ht2 : t2 = Tracker.mk (LastBlockType.message :: rest) :=
        ((Prod.mk.injEq _ _ _ _ ▸ (Except.ok.inj hs) : _ ∧ _).2).symm
      subst ht2
      constructor
      · intro _; rfl
      · intro hcase
        rcases hcase with h | h | h | h <;> simp at h
    | message =>
      dsimp only at hs
      cases hi : Tracker.indent_string
          (Tracker.mk (LastBlockType.message :: rest)) v with
      | error e => rw [hi] at hs; exact absurd hs (by simp)
      | ok p =>
        obtain ⟨s1, t2u⟩ := p
        rw [hi] at hs
        have ht2 : t2 = t2u :=
          ((Prod.mk.injEq _ _ _ _ ▸ (Except.ok.inj hs) : _ ∧ _).2).symm
        have hf := indent_string_block_frame _ _ _ _ _ hb hi
        subst ht2; rw [hf]
        constructor
        · intro hcase
          rcases hcase with h | h | h <;> simp at h
        · intro _; rfl
    | blockMessage =>
      dsimp only at hs
      cases hi : Tracker.indent_string
          (Tracker.mk (LastBlockType.blockMessage :: rest)) v with
      | error e => rw [hi] at hs; exact absurd hs (by simp)
      | ok p =>
        obtain ⟨s1, t2u⟩ := p
        rw [hi] at hs
        have ht2 : t2 = t2u :=
          ((Prod.mk.injEq _ _ _ _ ▸ (Except.ok.inj hs) : _ ∧ _).2).symm
        have hf := indent_string_block_frame _ _ _ _ _ hb hi
        subst ht2; rw [hf]
        constructor
        · intro hcase
          rcases hcase with h | h | h <;> simp at h
        · intro _; rfl
    | indent =>
      dsimp only at hs
      cases hi : Tracker.indent_string
          (Tracker.mk (LastBlockType.message :: rest)) v with
      | error e => rw [hi] at hs; exact absurd hs (by simp)
      | ok p =>
        obtain ⟨s1, t2u⟩ := p
        rw [hi] at hs
        have ht2 : t2 = t2u :=
          ((Prod.mk.injEq _ _ _ _ ▸ (Except.ok.inj hs) : _ ∧ _).2).symm
        have hf := indent_string_block_frame _ _ _ _ _ hb hi
        subst ht2; rw [hf]
        constructor
        · intro hcase
          rcases hcase with h | h | h <;> simp at h
        · intro _; rfl
    | blockIndent =>
      dsimp only at hs
      cases hi : Tracker.indent_string
          (Tracker.mk (LastBlockType.blockMessage :: rest)) v with
      | error e => rw [hi] at hs; exact absurd hs (by simp)
      | ok p =>
        obtain ⟨s1, t2u⟩ := p
        rw [hi] at hs
        have ht2 : t2 = t2u :=
          ((Prod.mk.injEq _ _ _ _ ▸ (Except.ok.inj hs) : _ ∧ _).2).symm
        have hf := indent_string_block_frame _ _ _ _ _ hb hi
        subst ht2; rw [hf]
        constructor
        · intro hcase
          rcases hcase with h | h | h <;> simp at h
        · intro _; rfl
    | keyValue => exact absurd hs (by simp)

/-- Witness for C2: the amended theorem applied at a concrete input (a plain
emit followed by a multi-line emit at depth 1, which the model evaluates to a
`|+` block whose frame is `BlockMessage`). -/
theorem tracker_C2_witness :
    Tracker.serialize (Tracker.mk [LastBlockType.message]) (mkStrBlock "a\nb")
        = .ok ("\n|+ a\nb".toList, Tracker.mk [LastBlockType.blockMessage])
      ∧ (Tracker.mk [LastBlockType.blockMessage]).depth.head?
          = some LastBlockType.blockMessage :=
  ⟨rfl,
    (tracker_C2_block_upgrade (Tracker.mk [LastBlockType.message])
        (mkStrBlock "a\nb") (Yml.str "a\nb".toList) [LastBlockType.message]
        "\n|+ a\nb".toList (Tracker.mk [LastBlockType.blockMessage])
        rfl rfl rfl).2 (Or.inl rfl)⟩

/-- If `c` occurs in `s`, `splitOnceChar` splits `s` at the first occurrence
of `c`: the key is exactly the prefix before it (so it contains no `c`). -/
theorem splitOnceChar_mem (c : Char) :
    ∀ s : Str, c ∈ s →
      ∃ k v, splitOnceChar s c = some (k, v) ∧ s = k ++ c :: v ∧ c ∉ k := by
  intro s
  induction s with
  | nil => intro h; exact absurd h (List.not_mem_nil c)
  | cons x rest ih =>
    intro h
    by_cases hx : x = c
    · subst hx
      exact ⟨[], rest, by simp [splitOnceChar], rfl, List.not_mem_nil x⟩
    · have hr : c ∈ rest := by
        rcases List.mem_cons.mp h with h1 | h1
        · exact absurd h1.symm hx
        · exact h1
      obtain ⟨k, v, hsp, heq, hk⟩ := ih hr
      refine ⟨x :: k, v, ?_, ?_, ?_⟩
      · simp [splitOnceChar, hx, hsp]
      · simp [heq]
      · intro hc
        rcases List.mem_cons.mp hc with h1 | h1
        · exact hx h1.symm
        · exact hk h1

/-- If `c` does not occur in `s`, `splitOnceChar` finds nothing. -/
theorem splitOnceChar_not_mem (c : Char) :
    ∀ s : Str, c ∉ s → splitOnceChar s c = none := by
  intro s
  induction s with
  | nil => intro _; rfl
  | cons x rest ih =>
    intro h
    have hx : ¬ x = c := fun he => h (List.mem_cons.mpr (Or.inl he.symm))
    have hr : c ∉ rest := fun hm => h (List.mem_cons_of_mem x hm)
    simp [splitOnceChar, hx, ih hr]

/-- Claim C9: the `k` op-code (`split_block`) splits a plain string message
at its first `:` into a key/value pair — the key is exactly the text before
the first colon, so it contains no colon itself — and it fails (an error, no
key/value pair produced) when the message contains no `:`, when it is not a
plain string, and when it was already split into a key/value pair. -/
theorem ymlog_C9_split (block : Block) :
    (∀ s : Str, block.message = MessageType.value (.str s) → ':' ∈ s →
        ∃ k v, YmLog.split_block block
            = .ok (block.withMessage (.keyValue (.str k) (.str v)))
          ∧ s = k ++ ':' :: v ∧ ':' ∉ k)
    ∧ (∀ s : Str, block.message = MessageType.value (.str s) → ':' ∉ s →
        ∃ e, YmLog.split_block block = .error e)
    ∧ ((∀ s : Str, block.message ≠ MessageType.value (.str s)) →
        ∃ e, YmLog.split_block block = .error e) := by
  refine ⟨?_, ?_, ?_⟩
  · intro s hm hmem
    obtain ⟨k, v, hsp, heq, hk⟩ := splitOnceChar_mem ':' s hmem
    refine ⟨k, v, ?_, heq, hk⟩
    unfold YmLog.split_block
    rw [hm]
    dsimp only
    rw [hsp]
  · intro s hm hmem
    refine ⟨"Could not find a colon to split at".toList, ?_⟩
    unfold YmLog.split_block
    rw [hm]
    dsimp only
    rw [splitOnceChar_not_mem ':' s hmem]
  · intro hns
    cases hm : block.message with
    | none => exact ⟨_, by unfold YmLog.split_block; rw [hm]⟩
    | value v =>
      cases v with
      | str s => exact absurd hm (hns s)
      | mapping p => exact ⟨_, by unfold YmLog.split_block; rw [hm]⟩
      | seq i => exact ⟨_, by unfold YmLog.split_block; rw [hm]⟩
    | keyValue k v => exact ⟨_, by unfold YmLog.split_block; rw [hm]⟩

/-- Witness for C9: the split theorem applied at the concrete message
`"a:b:c"`, which splits at the first colon. -/
theorem ymlog_C9_witness :
    (mkStrBlock "a:b:c").message = MessageType.value (.str "a:b:c".toList)
      ∧ ':' ∈ "a:b:c".toList
      ∧ ∃ k v, YmLog.split_block (mkStrBlock "a:b:c")
            = .ok ((mkStrBlock "a:b:c").withMessage
                (.keyValue (.str k) (.str v)))
          ∧ "a:b:c".toList = k ++ ':' :: v ∧ ':' ∉ k :=
  ⟨rfl, by decide,
    (ymlog_C9_split (mkStrBlock "a:b:c")).1 "a:b:c".toList rfl (by decide)⟩

/-- `Except.bind` applied to a success, as a rewrite rule. -/
theorem except_bind_ok {α β : Type} (a : α) (f : α → Except Str β) :
    Except.bind (Except.ok a) f = f a := rfl

/-- Interpreting one non-underscore action character: the loop body equals
the pure state effect of that character followed by the continuation. -/
theorem logLoop_cons (y : YmLog) (block : Block) (hp : Bool) (outs : List Str)
    (c : Char) (cs : Str) (hne : c ≠ '_') :
    YmLog.logLoop y block hp outs (c :: cs)
      = Except.bind (applyAct1 y block c)
          (fun p => YmLog.logLoop p.1 p.2 hp outs cs) := by
  have key : ∀ sb : Except Str Block,
      (match sb with
        | .error e => (.error e : Except Str (YmLog × Block × List Str))
        | .ok b2 => YmLog.logLoop y b2 hp outs cs)
        = Except.bind (match sb with
            | .error e => (.error e : Except Str (YmLog × Block))
            | .ok b2 => .ok (y, b2))
            (fun p => YmLog.logLoop p.1 p.2 hp outs cs) := by
    intro sb
    cases sb with
    | error e => rfl
    | ok b2 => rfl
  by_cases h1 : c = '+'
  · subst h1; rfl
  by_cases h2 : c = '-'
  · subst h2; rfl
  by_cases h3 : c = 'r'
  · subst h3; rfl
  by_cases h4 : c = 'k'
  · subst h4; exact key (YmLog.split_block block)
  by_cases h5 : c = 'T'
  · subst h5; rfl
  by_cases h6 : c = 'D'
  · subst h6; rfl
  by_cases h7 : c = 'I'
  · subst h7; rfl
  by_cases h8 : c = 'W'
  · subst h8; rfl
  by_cases h9 : c = 'E'
  · subst h9; rfl
  simp only [YmLog.logLoop, applyAct1, if_neg h1, if_neg h2, if_neg h3,
    if_neg h4, if_neg hne, if_neg h5, if_neg h6, if_neg h7, if_neg h8,
    if_neg h9]
  rfl

/-- With no underscore in the action string, the log loop applies every state
effect and then performs exactly one write at the end. -/
theorem logLoop_no_write :
    ∀ (acts : Str) (y : YmLog) (block : Block) (outs : List Str),
      '_' ∉ acts →
      YmLog.logLoop y block false outs acts
        = Except.bind (applyActs y block acts)
            (fun p => Except.map (fun q => (q.1, p.2, outs ++ q.2))
              (YmLog.write p.1 p.2)) := by
  intro acts
  induction acts with
  | nil =>
    intro y block outs _
    simp only [YmLog.logLoop, applyActs, except_bind_ok]
    rw [if_neg (show ¬ (false = true) by decide)]
    cases hw : YmLog.write y block with
    | error e => rfl
    | ok q => obtain ⟨y2, ws⟩ := q; rfl
  | cons c cs ih =>
    intro y block outs h
    have hc : c ≠ '_' := by intro he; exact h (by simp [he])
    have hcs : '_' ∉ cs := fun hm => h (List.mem_cons_of_mem c hm)
    rw [logLoop_cons y block false outs c cs hc]
    simp only [applyActs]
    cases ha : applyAct1 y block c with
    | error e => rfl
    | ok p => exact ih p.1 p.2 outs hcs

/-- With no underscore before it, the first `_` of the action string writes
the entry, as mutated so far, under the tracker state reached at that point,
and the loop continues with `has_printed` set. -/
theorem logLoop_split :
    ∀ (pre : Str) (y : YmLog) (block : Block) (outs : List Str) (post : Str),
      '_' ∉ pre →
      YmLog.logLoop y block false outs (pre ++ '_' :: post)
        = Except.bind (applyActs y block pre)
            (fun p => Except.bind (YmLog.write p.1 p.2)
              (fun q => YmLog.logLoop q.1 p.2 true (outs ++ q.2) post)) := by
  intro pre
  induction pre with
  | nil =>
    intro y block outs post _
    show YmLog.logLoop y block false outs ('_' :: post) = _
    simp only [YmLog.logLoop, applyActs, except_bind_ok]
    rw [if_neg (show ¬ ('_' = '+') by decide),
      if_neg (show ¬ ('_' = '-') by decide),
      if_neg (show ¬ ('_' = 'r') by decide),
      if_neg (show ¬ ('_' = 'k') by decide), if_pos trivial]
    cases hw : YmLog.write y block with
    | error e => rfl
    | ok q => obtain ⟨y2, ws⟩ := q; rfl
  | cons c cs ih =>
    intro y block outs post h
    have hc : c ≠ '_' := by intro he; exact h (by simp [he])
    have hcs : '_' ∉ cs := fun hm => h (List.mem_cons_of_mem c hm)
    show YmLog.logLoop y block false outs (c :: (cs ++ '_' :: post)) = _
    rw [logLoop_cons y block false outs c _ hc]
    simp only [applyActs]
    cases ha : applyAct1 y block c with
    | error e => rfl
    | ok p => exact ih p.1 p.2 outs post hcs

/-- Claim C8: with the sink attached, (i) if `_` never appears in the action
string, `log` applies all action effects left to right and then writes the
entry exactly once at the end; (ii) each occurrence of `_` serializes the
same entry (as mutated so far) under the tracker state at that point — the
call decomposes into the effects before the `_`, a write there, and the loop
continuing on the rest with `has_printed` set. -/
theorem ymlog_C8_underscore :
    (∀ (y : YmLog) (block : Block) (acts : Str),
        y.loggerSet = true → '_' ∉ acts →
        YmLog.log y block (some acts)
          = Except.bind (applyActs y block acts)
              (fun p => Except.map (fun q => (q.1, p.2, q.2))
                (YmLog.write p.1 p.2)))
    ∧ (∀ (y : YmLog) (block : Block) (pre post : Str),
        y.loggerSet = true → '_' ∉ pre →
        YmLog.log y block (some (pre ++ '_' :: post))
          = Except.bind (applyActs y block pre)
              (fun p => Except.bind (YmLog.write p.1 p.2)
                (fun q => YmLog.logLoop q.1 p.2 true q.2 post))) := by
  constructor
  · intro y block acts hset h
    unfold YmLog.log
    rw [hset, if_pos rfl]
    exact logLoop_no_write acts y block [] h
  · intro y block pre post hset h
    unfold YmLog.log
    rw [hset, if_pos rfl]
    exact logLoop_split pre y block [] post h

/-- Witness for C8: the no-underscore part applied at a concrete call. -/
theorem ymlog_C8_witness :
    ('_' ∉ "+r".toList)
      ∧ YmLog.log (T []) (mkStrBlock "hi") (some "+r".toList)
        = Except.bind (applyActs (T []) (mkStrBlock "hi") "+r".toList)
            (fun p => Except.map (fun q => (q.1, p.2, q.2))
              (YmLog.write p.1 p.2)) :=
  ⟨by decide,
    ymlog_C8_underscore.1 (T []) (mkStrBlock "hi") "+r".toList rfl (by decide)⟩

/-- A level-filtered entry never reaches `serialize` and writes nothing, but
the tracker still absorbs every `+`/`-`/`r` in the action string. -/
theorem logLoop_filtered :
    ∀ (acts : Str) (y : YmLog) (block : Block) (hp : Bool) (outs : List Str),
      Level.lt (block.log_level.getD Level.info) y.log_level = true →
      (∀ c ∈ acts, c = '+' ∨ c = '-' ∨ c = 'r' ∨ c = '_') →
      YmLog.logLoop y block hp outs acts
        = .ok ({ y with tracker := acts.foldl trackStep y.tracker },
            block, outs) := by
  intro acts
  induction acts with
  | nil =>
    intro y block hp outs hlv _
    cases hp with
    | true => rfl
    | false =>
      have hw : YmLog.write y block = .ok (y, []) := by
        simp [YmLog.write, hlv]
      simp only [YmLog.logLoop]
      rw [if_neg (show ¬ (false = true) by decide), hw]
      show (Except.ok (y, block, outs ++ [])
        : Except Str (YmLog × Block × List Str)) = _
      rw [List.append_nil]
      rfl
  | cons c cs ih =>
    intro y block hp outs hlv h
    have hcs : ∀ x ∈ cs, x = '+' ∨ x = '-' ∨ x = 'r' ∨ x = '_' :=
      fun x hx => h x (List.mem_cons_of_mem c hx)
    rcases h c (List.mem_cons_self c cs) with hc | hc | hc | hc
    · subst hc
      exact ih { y with tracker := y.tracker.indent } block hp outs hlv hcs
    · subst hc
      exact ih { y with tracker := y.tracker.dedent } block hp outs hlv hcs
    · subst hc
      exact ih { y with tracker := y.tracker.reset } block hp outs hlv hcs
    · subst hc
      have hw : YmLog.write y block = .ok (y, []) := by
        simp [YmLog.write, hlv]
      simp only [YmLog.logLoop]
      rw [if_neg (show ¬ ('_' = '+') by decide),
        if_neg (show ¬ ('_' = '-') by decide),
        if_neg (show ¬ ('_' = 'r') by decide),
        if_neg (show ¬ ('_' = 'k') by decide), if_pos trivial, hw]
      show YmLog.logLoop y block true (outs ++ []) cs = _
      rw [List.append_nil]
      exact ih y block true outs hlv hcs

/-- Claim C10: a `log()` call on an entry whose level (default `Info`) is
strictly below the threshold, with an action string of `+`/`-`/`r`/`_`
op-codes, never invokes `serialize` and writes nothing to the sink, yet the
tracker still absorbs every `+`, `-` and `r` — so a filtered-out entry can
change the indentation of later, unfiltered entries. -/
theorem ymlog_C10_filtered :
    ∀ (y : YmLog) (block : Block) (acts : Str),
      y.loggerSet = true →
      Level.lt (block.log_level.getD Level.info) y.log_level = true →
      (∀ c ∈ acts, c = '+' ∨ c = '-' ∨ c = 'r' ∨ c = '_') →
      YmLog.log y block (some acts)
        = .ok ({ y with tracker := acts.foldl trackStep y.tracker },
            block, []) := by
  intro y block acts hset hlv hacts
  have hlog : YmLog.log y block (some acts)
      = YmLog.logLoop y block false [] acts := by
    unfold YmLog.log
    rw [hset, if_pos rfl]
    rfl
  rw [hlog]
  exact logLoop_filtered acts y block false [] hlv hacts

/-- Witness for C10: an Info entry under a Warn threshold, with actions
`"r+"`: nothing is written, yet the tracker ends reset. -/
theorem ymlog_C10_witness :
    Level.lt ((mkStrBlock "hi").log_level.getD Level.info) Level.warn = true
      ∧ YmLog.log
          { tracker := Tracker.mk [], log_level := Level.warn, loggerSet := true }
          (mkStrBlock "hi") (some "r+".toList)
        = .ok ({ tracker := Tracker.mk [LastBlockType.reset],
                 log_level := Level.warn,
                 loggerSet := true }, mkStrBlock "hi", []) :=
  ⟨by decide,
    ymlog_C10_filtered
      { tracker := Tracker.mk [], log_level := Level.warn, loggerSet := true }
      (mkStrBlock "hi") "r+".toList rfl (by decide) (by decide)⟩
